import Mathlib

/-!
Verification of the FFVVC conformance test harness (`tools/ffmpeg.py`).

The harness is embedded shallowly: Python strings become `List Char`,
the filesystem and the decoder subprocess become explicit parameters
(`Option (List Char)` for the manifest file's content, `SubprocResult`
for the outcome of `subprocess.run`).  Console output does not influence
any outcome and is omitted.  Function names follow the Python source.
-/

namespace FfmpegTest

/-- ASCII whitespace, as recognised by Python's `str.split()` / `str.strip()`
(`' '`, `'\t'`, `'\n'`, `'\r'`, `'\x0b'`, `'\x0c'`; the further Unicode
whitespace code points never occur in the data handled here). -/
def isSpace (c : Char) : Bool :=
  c == ' ' || c == '\t' || c == '\n' || c == '\r' || c == '\x0b' || c == '\x0c'

/-- Python `str.strip()`: drop leading and trailing whitespace. -/
def pyStrip (l : List Char) : List Char :=
  ((l.dropWhile isSpace).reverse.dropWhile isSpace).reverse

/-- Worker for `pySplit`; `acc` holds the (reversed) token being read. -/
def pySplitAux : List Char → List Char → List (List Char)
  | acc, [] => if acc.isEmpty then [] else [acc.reverse]
  | acc, c :: rest =>
    if isSpace c then
      if acc.isEmpty then pySplitAux [] rest else acc.reverse :: pySplitAux [] rest
    else pySplitAux (c :: acc) rest

/-- Python `str.split()` (no argument): the maximal whitespace-free tokens,
in order; empty tokens never occur. -/
def pySplit (l : List Char) : List (List Char) :=
  pySplitAux [] l

/-- Worker for `readlines`; `acc` holds the (reversed) current line. -/
def readlinesAux : List Char → List Char → List (List Char)
  | acc, [] => if acc.isEmpty then [] else [acc.reverse]
  | acc, c :: rest =>
    if c = '\n' then ('\n' :: acc).reverse :: readlinesAux [] rest
    else readlinesAux (c :: acc) rest

/-- Python `file.readlines()` on the file's text: split after every `'\n'`,
keeping the terminator; a final segment without `'\n'` is kept as-is. -/
def readlines (l : List Char) : List (List Char) :=
  readlinesAux [] l

/-- Python `str.endswith(s)`. -/
def pyEndswith (l s : List Char) : Bool :=
  List.isSuffixOf s l

/-- POSIX `os.path.basename`: everything after the last `'/'`. -/
def pyBasename (p : List Char) : List Char :=
  (p.reverse.takeWhile (fun c => c ≠ '/')).reverse

/-- The exact line ending `get_ref_md5` searches for:
`"  " + name + "\n"` (two spaces, the basename, a newline). -/
def refLineEnd (name : List Char) : List Char :=
  ' ' :: ' ' :: (name ++ ['\n'])

/--
`get_ref_md5(fn)` from the source.  The filesystem read of
`dirname(fn)/md5.txt` is abstracted into the `manifest` parameter:
`none` models `FileNotFoundError` (manifest file missing), `some content`
models a successful read of the whole text.  `next(filter(...))` is the
first line satisfying the predicate (`List.find?`); `StopIteration`
(no matching line) yields `None`, i.e. `none`.  `checksum.split()[0]` is
the first `split()` token of the matching line; `head?` stands for the
`[0]` indexing (a matching line always contains a non-whitespace
character whenever the basename does, so for real candidate names the
token exists and the `IndexError` case of `[0]` is unreachable).
-/
def get_ref_md5 (manifest : Option (List Char)) (fn : List Char) : Option (List Char) :=
  match manifest with
  | none => none
  | some content =>
    let name := pyBasename fn
    match (readlines content).find? (fun l => pyEndswith l (refLineEnd name)) with
    | none => none
    | some checksum => (pySplit checksum).head?

/--
Python `stdout.replace("MD5=", "")`: scan left to right; whenever the
next four characters are `M`, `D`, `5`, `=`, delete them (non-overlapping,
every occurrence), otherwise keep one character and continue.
-/
def replaceMD5 : List Char → List Char
  | 'M' :: 'D' :: '5' :: '=' :: rest => replaceMD5 rest
  | c :: rest => c :: replaceMD5 rest
  | [] => []

/-- The observable result of `subprocess.run(cmd, capture_output=True, timeout=300)`:
either the process completed (with its exit status and captured streams,
both decoded to text), or `subprocess.run` raised an exception —
`TimeoutExpired`, `FileNotFoundError`, `PermissionError`, … — whose
`str(e)` rendering is `msg`.  `returncode` is an `Int`: Python reports
signal deaths as negative values, and any non-zero value is truthy. -/
inductive SubprocResult where
  | completed (returncode : Int) (stdout stderr : List Char)
  | raised (msg : List Char)

/-- `get_md5(input, ffmpeg_path)` from the source, as a function of the
subprocess outcome.  `if o.returncode:` returns `""` for any non-zero
status; on status zero the checksum is
`o.stdout.decode().replace("MD5=", "").strip()`; `except Exception as e:
return str(e)` surfaces the exception text. -/
def get_md5 (res : SubprocResult) : List Char :=
  match res with
  | .completed rc out _ => if rc ≠ 0 then [] else pyStrip (replaceMD5 out)
  | .raised msg => msg

def PASSED : Nat := 0

def FAILED : Nat := 1

def SKIPPED : Nat := 2

/-- `test(f, args)` from the source.  `if not refmd5:` is a Python
falsiness test, so both `None` and the empty string lead to `SKIPPED`;
otherwise the decoder checksum is compared to the reference by exact
string equality.  The two diagnostic `print`s are omitted. -/
def test (manifest : Option (List Char)) (fn : List Char) (res : SubprocResult) : Nat :=
  match get_ref_md5 manifest fn with
  | none => SKIPPED
  | some refmd5 =>
    if refmd5 = [] then SKIPPED
    else if refmd5 = get_md5 res then PASSED else FAILED

/-- The extension part of POSIX `os.path.splitext(p)` (`genericpath._splitext`
with `sep = '/'`, no `altsep`, `extsep = '.'`): the extension starts at the
last `'.'`, provided that dot lies after the last `'/'` and at least one
non-dot character sits between them (leading dots of the basename are not
an extension: `".bin"` has none).  Equivalently: within the part after the
last slash, drop the leading run of dots; if a dot remains, the extension
is the last dot and everything after it, else it is empty. -/
def extOf (p : List Char) : List Char :=
  let base := (p.reverse.takeWhile (fun c => c ≠ '/')).reverse
  let t := base.dropWhile (fun c => c = '.')
  let r := t.reverse.takeWhile (fun c => c ≠ '.')
  if r.length = t.length then [] else '.' :: r.reverse

/-- Python `str.lower()` restricted to ASCII (extensions here are ASCII). -/
def pyLower (l : List Char) : List Char :=
  l.map Char.toLower

/-- `is_candidiate(f)` from the source (the typo is the source's):
`splitext`, lower-case the extension, and test membership in the fixed
allow-list. -/
def is_candidiate (f : List Char) : Bool :=
  let ext := pyLower (extOf f)
  [".bin".toList, ".bit".toList, ".vvc".toList, ".266".toList].contains ext

/-- `test_file(path, args)` from the source: it calls `test` directly on
the given path — there is no `is_candidiate` check in this mode — and
returns `0`.  The pair is (outcome of the `test` call, return value);
the `print` is omitted. -/
def test_file (manifest : Option (List Char)) (path : List Char) (res : SubprocResult) : Nat × Nat :=
  (test manifest path res, 0)

/-- One step of the collection loop of `test_dir`: `none` models
`future.result()` raising (the exception is printed and the file is not
counted); `some s` models a returned outcome, counted by `count[s] += 1`.
(`List.set` leaves the list unchanged when `s` is out of range; `test`
only ever returns 0, 1 or 2, all in range for the length-3 counter.) -/
def collectStep (cnt : List Nat) (r : Option Nat) : List Nat :=
  match r with
  | none => cnt
  | some s => cnt.set s (cnt.getD s 0 + 1)

/-- The collection loop of `test_dir` over the completed futures, starting
from `count = [0, 0, 0]`.  The per-outcome basename lists (`summary`) are
omitted: no claim concerns them. -/
def collect (results : List (Option Nat)) : List Nat :=
  results.foldl collectStep [0, 0, 0]

/-- `count[PASSED] + count[FAILED] + count[SKIPPED]`, the total printed by
`print_summary`. -/
def sumCounts (cnt : List Nat) : Nat :=
  cnt.getD PASSED 0 + cnt.getD FAILED 0 + cnt.getD SKIPPED 0

/-- `test_dir(path, args)` as a function of the per-future results of its
collection loop (one entry per candidate file dispatched by
`submmit_files`): the final counter state, and the value passed to
`sys.exit`, namely `count[FAILED]`. -/
def test_dir (results : List (Option Nat)) : List Nat × Nat :=
  let cnt := collect results
  (cnt, cnt.getD FAILED 0)

/-! ### Properties of `pySplit`: tokens are non-empty and whitespace-free -/

theorem pySplitAux_tokens (l : List Char) : ∀ acc : List Char,
    (∀ c ∈ acc, isSpace c = false) →
    ∀ t ∈ pySplitAux acc l, t ≠ [] ∧ ∀ c ∈ t, isSpace c = false := by
  induction l with
  | nil =>
    intro acc hacc t ht
    cases acc with
    | nil => simp [pySplitAux] at ht
    | cons a as =>
      simp [pySplitAux] at ht
      subst ht
      refine ⟨by simp, ?_⟩
      intro c hc
      exact hacc c (List.mem_cons.mpr (Or.symm (by simpa using hc)))
  | cons c rest ih =>
    intro acc hacc t ht
    by_cases hs : isSpace c = true
    · cases acc with
      | nil =>
        simp [pySplitAux, hs] at ht
        exact ih [] (by simp) t ht
      | cons a as =>
        simp [pySplitAux, hs] at ht
        rcases ht with ht | ht
        · subst ht
          refine ⟨by simp, ?_⟩
          intro d hd
          exact hacc d (List.mem_cons.mpr (Or.symm (by simpa using hd)))
        · exact ih [] (by simp) t ht
    · have hs' : isSpace c = false := by simpa using hs
      simp [pySplitAux, hs'] at ht
      refine ih (c :: acc) ?_ t ht
      intro d hd
      rcases List.mem_cons.mp hd with h | h
      · subst h; exact hs'
      · exact hacc d h

theorem pySplit_tokens (l : List Char) :
    ∀ t ∈ pySplit l, t ≠ [] ∧ ∀ c ∈ t, isSpace c = false :=
  pySplitAux_tokens l [] (by simp)

theorem pySplitAux_ne_nil_of_acc (l : List Char) : ∀ acc : List Char, acc ≠ [] →
    pySplitAux acc l ≠ [] := by
  induction l with
  | nil =>
    intro acc hacc
    cases acc with
    | nil => exact absurd rfl hacc
    | cons a as => simp [pySplitAux]
  | cons c rest ih =>
    intro acc hacc
    cases acc with
    | nil => exact absurd rfl hacc
    | cons a as =>
      by_cases hs : isSpace c = true
      · simp [pySplitAux, hs]
      · have hs' : isSpace c = false := by simpa using hs
        simpa [pySplitAux, hs'] using ih (c :: a :: as) (by simp)

theorem pySplit_ne_nil (l : List Char) (h : ∃ c ∈ l, isSpace c = false) :
    pySplit l ≠ [] := by
  rw [pySplit]
  induction l with
  | nil => simp at h
  | cons a rest ih =>
    by_cases hs : isSpace a = true
    · have hrest : ∃ c ∈ rest, isSpace c = false := by
        obtain ⟨c, hc, hcs⟩ := h
        rcases List.mem_cons.mp hc with rfl | hc'
        · exact absurd hs (by simp [hcs])
        · exact ⟨c, hc', hcs⟩
      simpa [pySplitAux, hs] using ih hrest
    · have hs' : isSpace a = false := by simpa using hs
      simp only [pySplitAux, hs', Bool.false_eq_true, if_false]
      exact pySplitAux_ne_nil_of_acc rest [a] (by simp)

/-! ### Properties of `get_ref_md5` -/

theorem get_ref_md5_token (manifest : Option (List Char)) (fn : List Char)
    (r : List Char) (h : get_ref_md5 manifest fn = some r) :
    r ≠ [] ∧ ∀ c ∈ r, isSpace c = false := by
  cases manifest with
  | none => simp [get_ref_md5] at h
  | some content =>
    rw [get_ref_md5] at h
    rcases hf : (readlines content).find?
        (fun l => pyEndswith l (refLineEnd (pyBasename fn))) with _ | l
    · rw [hf] at h; simp at h
    · rw [hf] at h
      have h2 : (pySplit l).head? = some r := h
      rcases hs : pySplit l with _ | ⟨t, ts⟩
      · rw [hs] at h2; simp at h2
      · rw [hs] at h2
        simp only [List.head?_cons, Option.some.injEq] at h2
        subst h2
        exact pySplit_tokens l t (by rw [hs]; exact List.mem_cons_self t ts)

/-! ### Properties of `pyEndswith` and `readlines` -/

theorem pyEndswith_iff (l s : List Char) : pyEndswith l s = true ↔ s <:+ l := by
  simp [pyEndswith]

theorem mem_of_pyEndswith {l s : List Char} (h : pyEndswith l s = true)
    {c : Char} (hc : c ∈ s) : c ∈ l :=
  ((pyEndswith_iff l s).mp h).subset hc

theorem pyEndswith_refLineEnd_getLast {l name : List Char}
    (h : pyEndswith l (refLineEnd name) = true) : l.getLast? = some '\n' := by
  obtain ⟨u, hu⟩ := (pyEndswith_iff l (refLineEnd name)).mp h
  have : l = (u ++ (' ' :: ' ' :: name)) ++ ['\n'] := by
    rw [← hu]; simp [refLineEnd]
  rw [this]
  exact List.getLast?_concat _

theorem readlinesAux_no_nl (cs : List Char) : ∀ acc : List Char,
    '\n' ∉ cs → (acc ≠ [] ∨ cs ≠ []) →
    readlinesAux acc cs = [acc.reverse ++ cs] := by
  induction cs with
  | nil =>
    intro acc _ hne
    rcases hne with h | h
    · cases acc with
      | nil => exact absurd rfl h
      | cons a as => simp [readlinesAux]
    · exact absurd rfl h
  | cons c rest ih =>
    intro acc hnl _
    have hc : c ≠ '\n' := fun hh => hnl (hh ▸ List.mem_cons_self c rest)
    rw [readlinesAux, if_neg hc, ih (c :: acc) (fun hh => hnl (List.mem_cons_of_mem c hh))
      (Or.inl (by simp))]
    simp

theorem readlinesAux_nil (acc : List Char) :
    readlinesAux acc [] = if acc.isEmpty then [] else [acc.reverse] := rfl

theorem readlinesAux_cons (acc : List Char) (c : Char) (rest : List Char) :
    readlinesAux acc (c :: rest) =
      if c = '\n' then ('\n' :: acc).reverse :: readlinesAux [] rest
      else readlinesAux (c :: acc) rest := rfl

theorem readlinesAux_append (pre : List Char) :
    ∀ acc rest : List Char, pre.getLast? = some '\n' →
    readlinesAux acc (pre ++ rest) = readlinesAux acc pre ++ readlinesAux [] rest := by
  induction pre with
  | nil => intro acc rest h; simp at h
  | cons c pre' ih =>
    intro acc rest h
    cases pre' with
    | nil =>
      simp only [List.getLast?_singleton, Option.some.injEq] at h
      subst h
      rw [List.singleton_append, readlinesAux_cons, readlinesAux_cons, if_pos rfl, if_pos rfl,
        readlinesAux_nil]
      simp
    | cons c' pre'' =>
      have h' : (c' :: pre'').getLast? = some '\n' := by
        rwa [List.getLast?_cons_cons] at h
      rw [List.cons_append, readlinesAux_cons, readlinesAux_cons]
      by_cases hc : c = '\n'
      · rw [if_pos hc, if_pos hc, ih [] rest h']
        simp
      · rw [if_neg hc, if_neg hc]
        exact ih (c :: acc) rest h'

theorem readlines_append (pre rest : List Char) (h : pre.getLast? = some '\n') :
    readlines (pre ++ rest) = readlines pre ++ readlines rest :=
  readlinesAux_append pre [] rest h

/-! ### Properties of `replaceMD5` and `pyStrip` -/

theorem replaceMD5_mdfive (l : List Char) :
    replaceMD5 ('M' :: 'D' :: '5' :: '=' :: l) = replaceMD5 l := rfl

theorem replaceMD5_cons_ne (c : Char) (l : List Char) (h : c ≠ 'M') :
    replaceMD5 (c :: l) = c :: replaceMD5 l := by
  rw [replaceMD5.eq_def]
  split
  · rename_i rest heq
    injection heq with h1 _
    exact absurd h1 h
  · rename_i c2 rest2 hno heq
    injection heq with h1 h2
    rw [h1, h2]
  · rename_i heq
    simp at heq

theorem replaceMD5_no_M (l : List Char) (h : ∀ c ∈ l, c ≠ 'M') :
    replaceMD5 l = l := by
  induction l with
  | nil => rfl
  | cons c rest ih =>
    rw [replaceMD5_cons_ne c rest (h c (List.mem_cons_self c rest)),
      ih (fun d hd => h d (List.mem_cons_of_mem c hd))]

theorem dropWhile_isSpace_of_no_space (m : List Char) (hm : ∀ c ∈ m, isSpace c = false) :
    m.dropWhile isSpace = m := by
  cases m with
  | nil => rfl
  | cons x xs =>
    rw [List.dropWhile_cons, if_neg (by simp [hm x (List.mem_cons_self x xs)])]

theorem dropWhile_isSpace_all_space (m : List Char) (hm : ∀ c ∈ m, isSpace c = true) :
    m.dropWhile isSpace = [] := by
  induction m with
  | nil => rfl
  | cons x xs ih =>
    rw [List.dropWhile_cons, if_pos (hm x (List.mem_cons_self x xs))]
    exact ih (fun d hd => hm d (List.mem_cons_of_mem x hd))

theorem pyStrip_append_ws (a ws : List Char)
    (ha : ∀ c ∈ a, isSpace c = false) (hws : ∀ c ∈ ws, isSpace c = true) :
    pyStrip (a ++ ws) = a := by
  cases a with
  | nil =>
    rw [List.nil_append, pyStrip, dropWhile_isSpace_all_space ws hws]
    rfl
  | cons x xs =>
    have hrev : ∀ c ∈ (x :: xs).reverse, isSpace c = false :=
      fun c hc => ha c (List.mem_reverse.mp hc)
    rw [pyStrip, List.cons_append, List.dropWhile_cons,
      if_neg (by simp [ha x (List.mem_cons_self x xs)]), ← List.cons_append,
      List.reverse_append,
      List.dropWhile_append_of_pos (fun b hb => hws b (List.mem_reverse.mp hb)),
      dropWhile_isSpace_of_no_space _ hrev, List.reverse_reverse]

/-! ### Properties of the `test_dir` collection loop -/

theorem collect_foldl_failed : ∀ (results : List (Option Nat)) (a b c : Nat),
    (results.foldl collectStep [a, b, c]).getD FAILED 0 =
      b + (results.filter (fun r => r == some FAILED)).length := by
  intro results
  induction results with
  | nil => intro a b c; rfl
  | cons r rs ih =>
    intro a b c
    cases r with
    | none =>
      rw [List.foldl_cons, List.filter_cons]
      simpa [collectStep] using ih a b c
    | some s =>
      match s with
      | 0 =>
        rw [List.foldl_cons, List.filter_cons]
        have hstep : collectStep [a, b, c] (some 0) = [a + 1, b, c] := rfl
        rw [hstep]
        simpa [FAILED] using ih (a + 1) b c
      | 1 =>
        rw [List.foldl_cons, List.filter_cons]
        have hstep : collectStep [a, b, c] (some 1) = [a, b + 1, c] := rfl
        rw [hstep, ih a (b + 1) c]
        simp [FAILED]
        omega
      | 2 =>
        rw [List.foldl_cons, List.filter_cons]
        have hstep : collectStep [a, b, c] (some 2) = [a, b, c + 1] := rfl
        rw [hstep]
        simpa [FAILED] using ih a b (c + 1)
      | n + 3 =>
        rw [List.foldl_cons, List.filter_cons]
        have hstep : collectStep [a, b, c] (some (n + 3)) = [a, b, c] := rfl
        have hne : ((some (n + 3) : Option Nat) == some FAILED) = false := by
          simp [FAILED]
        rw [hstep, hne]
        simpa using ih a b c

theorem collect_failed (results : List (Option Nat)) :
    (collect results).getD FAILED 0 =
      (results.filter (fun r => r == some FAILED)).length := by
  simpa using collect_foldl_failed results 0 0 0

theorem collect_foldl_sum : ∀ (results : List (Option Nat)) (a b c : Nat),
    (∀ r ∈ results, ∀ s, r = some s → s < 3) →
    sumCounts (results.foldl collectStep [a, b, c]) =
      a + b + c + (results.filter (fun r => r.isSome)).length := by
  intro results
  induction results with
  | nil => intro a b c _; rfl
  | cons r rs ih =>
    intro a b c hv
    have hrs : ∀ r' ∈ rs, ∀ s, r' = some s → s < 3 :=
      fun r' h' s hh => hv r' (List.mem_cons_of_mem r h') s hh
    cases r with
    | none =>
      rw [List.foldl_cons, List.filter_cons]
      simpa [collectStep] using ih a b c hrs
    | some s =>
      have hs : s < 3 := hv (some s) (List.mem_cons_self _ rs) s rfl
      rw [List.foldl_cons, List.filter_cons]
      match s, hs with
      | 0, _ =>
        have hstep : collectStep [a, b, c] (some 0) = [a + 1, b, c] := rfl
        rw [hstep, ih (a + 1) b c hrs]
        simp
        omega
      | 1, _ =>
        have hstep : collectStep [a, b, c] (some 1) = [a, b + 1, c] := rfl
        rw [hstep, ih a (b + 1) c hrs]
        simp
        omega
      | 2, _ =>
        have hstep : collectStep [a, b, c] (some 2) = [a, b, c + 1] := rfl
        rw [hstep, ih a b (c + 1) hrs]
        simp
        omega

theorem collect_sum (results : List (Option Nat))
    (hv : ∀ r ∈ results, ∀ s, r = some s → s < 3) :
    sumCounts (collect results) = (results.filter (fun r => r.isSome)).length := by
  simpa using collect_foldl_sum results 0 0 0 hv

/-- Normal form of `test`: since `get_ref_md5` can only return `none` or a
non-empty token, the Python falsiness test `if not refmd5` collapses to the
`none` check. -/
theorem test_eq (manifest : Option (List Char)) (fn : List Char) (res : SubprocResult) :
    test manifest fn res =
      match get_ref_md5 manifest fn with
      | none => SKIPPED
      | some r => if r = get_md5 res then PASSED else FAILED := by
  rcases hm : get_ref_md5 manifest fn with _ | r
  · simp [test, hm]
  · have hne := (get_ref_md5_token manifest fn r hm).1
    simp [test, hm, hne]

/-- `List.find?` returns the head of the first decomposition whose earlier
elements all fail the predicate. -/
theorem find?_first {α : Type} (p : α → Bool) : ∀ (ls1 : List α) (l : α) (ls2 : List α),
    (∀ x ∈ ls1, p x = false) → p l = true →
    (ls1 ++ l :: ls2).find? p = some l := by
  intro ls1
  induction ls1 with
  | nil => intro l ls2 _ hl; simpa using List.find?_cons_of_pos _ (by simp [hl])
  | cons x xs ih =>
    intro l ls2 hno hl
    rw [List.cons_append, List.find?_cons_of_neg _ (by simp [hno x (List.mem_cons_self x xs)])]
    exact ih l ls2 (fun y hy => hno y (List.mem_cons_of_mem x hy)) hl

/-- C1: for every manifest state, candidate path and decoder result, the Test
Executor `test` produces exactly one of the three outcomes, fixed as follows:
Reference Lookup absent → `SKIPPED`; reference present and equal to the
decoder checksum by exact string match → `PASSED`; otherwise → `FAILED`. -/
theorem C1_test_outcomes (manifest : Option (List Char)) (fn : List Char)
    (res : SubprocResult) :
    (test manifest fn res = PASSED ∨ test manifest fn res = FAILED ∨
      test manifest fn res = SKIPPED) ∧
    (get_ref_md5 manifest fn = none → test manifest fn res = SKIPPED) ∧
    (∀ r, get_ref_md5 manifest fn = some r →
      (r = get_md5 res → test manifest fn res = PASSED) ∧
      (r ≠ get_md5 res → test manifest fn res = FAILED)) := by
  rcases hm : get_ref_md5 manifest fn with _ | r
  · have hs : test manifest fn res = SKIPPED := by rw [test_eq, hm]
    exact ⟨Or.inr (Or.inr hs), fun _ => hs, fun r hr => Option.noConfusion hr⟩
  · have hp : r = get_md5 res → test manifest fn res = PASSED := by
      intro heq
      rw [test_eq, hm]
      simp [heq]
    have hf : r ≠ get_md5 res → test manifest fn res = FAILED := by
      intro hne2
      rw [test_eq, hm]
      simp [hne2]
    refine ⟨?_, fun hh => Option.noConfusion hh, fun r' hr' => ?_⟩
    · by_cases heq : r = get_md5 res
      · exact Or.inl (hp heq)
      · exact Or.inr (Or.inl (hf heq))
    · injection hr' with hh
      subst hh
      exact ⟨hp, hf⟩

/-- C1 witness: concrete skip and pass instances obtained from
`C1_test_outcomes`. -/
theorem C1_test_outcomes_witness :
    test (some "abc123  clip1.bin\n".toList) "clip1.bin".toList
        (.completed 0 "MD5=abc123\n".toList []) = PASSED ∧
    test none "clip1.bin".toList (.completed 0 "MD5=abc123\n".toList []) = SKIPPED :=
  ⟨((C1_test_outcomes (some "abc123  clip1.bin\n".toList) "clip1.bin".toList
      (.completed 0 "MD5=abc123\n".toList [])).2.2 "abc123".toList (by decide)).1 (by decide),
   (C1_test_outcomes none "clip1.bin".toList
      (.completed 0 "MD5=abc123\n".toList [])).2.1 rfl⟩

/-- C2: `get_ref_md5` returns `none` when the manifest file is missing or no
manifest line ends with two spaces, the candidate's basename and a newline;
when such a line exists, it returns the whitespace-delimited first token of
the first matching line (the basename containing a non-whitespace character,
as every real file name does).  The manifest is only ever read. -/
theorem C2_get_ref_md5_lookup (fn : List Char) :
    get_ref_md5 none fn = none ∧
    (∀ content, (∀ l ∈ readlines content,
        pyEndswith l (refLineEnd (pyBasename fn)) = false) →
      get_ref_md5 (some content) fn = none) ∧
    (∀ content ls1 l ls2,
      readlines content = ls1 ++ l :: ls2 →
      (∀ l' ∈ ls1, pyEndswith l' (refLineEnd (pyBasename fn)) = false) →
      pyEndswith l (refLineEnd (pyBasename fn)) = true →
      (∃ c ∈ pyBasename fn, isSpace c = false) →
      ∃ tok rest, pySplit l = tok :: rest ∧
        get_ref_md5 (some content) fn = some tok) := by
  refine ⟨rfl, ?_, ?_⟩
  · intro content hall
    have hfind : (readlines content).find?
        (fun l => pyEndswith l (refLineEnd (pyBasename fn))) = none :=
      List.find?_eq_none.mpr (fun x hx => by simp [hall x hx])
    simp [get_ref_md5, hfind]
  · intro content ls1 l ls2 hdecomp hno hl hname
    have hfind : (readlines content).find?
        (fun l' => pyEndswith l' (refLineEnd (pyBasename fn))) = some l := by
      rw [hdecomp]
      exact find?_first _ ls1 l ls2 hno hl
    obtain ⟨c, hc, hcs⟩ := hname
    have hcl : c ∈ l := by
      refine mem_of_pyEndswith hl ?_
      exact List.mem_cons_of_mem _ (List.mem_cons_of_mem _ (List.mem_append_left _ hc))
    have hsplit : pySplit l ≠ [] := pySplit_ne_nil l ⟨c, hcl, hcs⟩
    rcases hs : pySplit l with _ | ⟨tok, rest⟩
    · exact absurd hs hsplit
    · exact ⟨tok, rest, rfl, by simp [get_ref_md5, hfind, hs]⟩

/-- C2 witness: a two-line manifest where the second line matches; the
returned checksum is that line's first token. -/
theorem C2_get_ref_md5_lookup_witness :
    get_ref_md5 none "/dir/clip1.bin".toList = none ∧
    (∃ tok rest, pySplit "abc123  clip1.bin\n".toList = tok :: rest ∧
      get_ref_md5 (some "zz  other.bin\nabc123  clip1.bin\n".toList)
        "/dir/clip1.bin".toList = some tok) :=
  ⟨(C2_get_ref_md5_lookup "/dir/clip1.bin".toList).1,
   (C2_get_ref_md5_lookup "/dir/clip1.bin".toList).2.2
     "zz  other.bin\nabc123  clip1.bin\n".toList ["zz  other.bin\n".toList]
     "abc123  clip1.bin\n".toList [] (by decide) (by decide) (by decide) (by decide)⟩

/-- C9: when the decoder exits non-zero, `get_md5` returns the empty string;
a present reference is always a non-empty whitespace-free token; hence the
outcome is `FAILED`, never `PASSED`. -/
theorem C9_nonzero_exit_fails (manifest : Option (List Char)) (fn r : List Char)
    (hr : get_ref_md5 manifest fn = some r) (rc : Int) (out err : List Char)
    (hrc : rc ≠ 0) :
    get_md5 (.completed rc out err) = [] ∧
    r ≠ [] ∧ (∀ c ∈ r, isSpace c = false) ∧
    test manifest fn (.completed rc out err) = FAILED ∧
    test manifest fn (.completed rc out err) ≠ PASSED := by
  obtain ⟨hne, hnospace⟩ := get_ref_md5_token manifest fn r hr
  have hmd5 : get_md5 (.completed rc out err) = [] := by simp [get_md5, hrc]
  have htest : test manifest fn (.completed rc out err) = FAILED := by
    rw [test_eq, hr]
    simp [hmd5, hne]
  exact ⟨hmd5, hne, hnospace, htest, by rw [htest]; decide⟩

/-- C9 witness: concrete non-zero exit with a present reference fails. -/
theorem C9_nonzero_exit_fails_witness :
    get_md5 (.completed 1 "MD5=deadbeef\n".toList []) = [] ∧
    test (some "deadbeef  b.bin\n".toList) "b.bin".toList
      (.completed 1 "MD5=deadbeef\n".toList []) = FAILED := by
  have h := C9_nonzero_exit_fails (some "deadbeef  b.bin\n".toList) "b.bin".toList
    "deadbeef".toList (by decide) 1 "MD5=deadbeef\n".toList [] (by decide)
  exact ⟨h.1, h.2.2.2.1⟩

/-- C10: a manifest line can match only if it ends with a newline; when the
manifest's final line lacks the trailing newline, a candidate listed only on
that line gets no reference and its outcome is `SKIPPED`, even though the
line ends with the two-space-separated basename. -/
theorem C10_last_line_no_newline (fn pre chk : List Char) (res : SubprocResult)
    (hpre : pre = [] ∨ pre.getLast? = some '\n')
    (hnomatch : ∀ l ∈ readlines pre, pyEndswith l (refLineEnd (pyBasename fn)) = false)
    (hchk : '\n' ∉ chk) (hnamenl : '\n' ∉ pyBasename fn) :
    (∀ content l, l ∈ readlines content →
      pyEndswith l (refLineEnd (pyBasename fn)) = true → l.getLast? = some '\n') ∧
    get_ref_md5 (some (pre ++ (chk ++ ' ' :: ' ' :: pyBasename fn))) fn = none ∧
    test (some (pre ++ (chk ++ ' ' :: ' ' :: pyBasename fn))) fn res = SKIPPED := by
  have hpart1 : ∀ content l, l ∈ readlines content →
      pyEndswith l (refLineEnd (pyBasename fn)) = true → l.getLast? = some '\n' :=
    fun _ l _ hl => pyEndswith_refLineEnd_getLast hl
  set tail := chk ++ ' ' :: ' ' :: pyBasename fn with htail
  have htailnl : '\n' ∉ tail := by
    intro hmem
    rcases List.mem_append.mp hmem with h | h
    · exact hchk h
    · rcases List.mem_cons.mp h with h' | h'
      · exact absurd h'.symm (by decide)
      · rcases List.mem_cons.mp h' with h'' | h''
        · exact absurd h''.symm (by decide)
        · exact hnamenl h''
  have htailne : tail ≠ [] := by simp [htail]
  have hreadtail : readlines tail = [tail] := by
    rw [readlines, readlinesAux_no_nl tail [] htailnl (Or.inr htailne)]
    simp
  have htailmatch : pyEndswith tail (refLineEnd (pyBasename fn)) = false := by
    by_contra hcon
    have htrue : pyEndswith tail (refLineEnd (pyBasename fn)) = true := by
      simpa using hcon
    have : ('\n' : Char) ∈ tail :=
      mem_of_pyEndswith htrue
        (List.mem_cons_of_mem _ (List.mem_cons_of_mem _
          (List.mem_append_right _ (List.mem_singleton.mpr rfl))))
    exact htailnl this
  have hlines : readlines (pre ++ tail) = readlines pre ++ [tail] := by
    rcases hpre with h | h
    · rw [h, List.nil_append, hreadtail]
      simp [readlines, readlinesAux]
    · rw [readlines_append pre tail h, hreadtail]
  have hfind : (readlines (pre ++ tail)).find?
      (fun l => pyEndswith l (refLineEnd (pyBasename fn))) = none := by
    rw [hlines]
    refine List.find?_eq_none.mpr ?_
    intro x hx
    rcases List.mem_append.mp hx with h | h
    · simp [hnomatch x h]
    · rw [List.mem_singleton.mp h]
      simp [htailmatch]
  have hlookup : get_ref_md5 (some (pre ++ tail)) fn = none := by
    simp [get_ref_md5, hfind]
  exact ⟨hpart1, hlookup, by rw [test_eq, hlookup]⟩

/-- C10 witness: manifest `"deadbeef  a.bin"` without trailing newline gives
no reference for `a.bin`, and the test is skipped. -/
theorem C10_last_line_no_newline_witness :
    get_ref_md5 (some "deadbeef  a.bin".toList) "a.bin".toList = none ∧
    test (some "deadbeef  a.bin".toList) "a.bin".toList (.raised []) = SKIPPED := by
  have h := C10_last_line_no_newline "a.bin".toList [] "deadbeef".toList (.raised [])
    (Or.inl rfl) (by decide) (by decide) (by decide)
  exact ⟨h.2.1, h.2.2⟩

/-- C4 counterexample: `test` compares the reference against whatever string
`get_md5` returned, including the `str(e)` text of a launch exception; an
exception message exactly equal to the reference token therefore yields
`PASSED`, refuting "the string returned on the error path never equals the
reference checksum" and "the outcome is Failed". -/
theorem C4_counterexample :
    get_ref_md5 (some "deadbeef  a.bin\n".toList) "a.bin".toList =
      some "deadbeef".toList ∧
    test (some "deadbeef  a.bin\n".toList) "a.bin".toList
      (.raised "deadbeef".toList) = PASSED ∧
    PASSED ≠ FAILED := by decide

/-- C4 amended: with a present reference, a non-zero decoder exit always
yields `FAILED` (the empty string never equals the non-empty reference
token); an exception during invocation (timeout or launch failure) yields
`FAILED` whenever its message differs from the reference token — in
particular whenever the message contains any whitespace, as the messages of
`TimeoutExpired` and of the launch errors `subprocess.run` raises do.  No
failure aborts the run: `test` is total. -/
theorem C4_invocation_failure_fails (manifest : Option (List Char)) (fn r : List Char)
    (hr : get_ref_md5 manifest fn = some r) :
    (∀ (rc : Int) (out err : List Char), rc ≠ 0 →
      test manifest fn (.completed rc out err) = FAILED) ∧
    (∀ msg, msg ≠ r → test manifest fn (.raised msg) = FAILED) ∧
    (∀ msg, (∃ c ∈ msg, isSpace c = true) → test manifest fn (.raised msg) = FAILED) := by
  obtain ⟨hne, hnospace⟩ := get_ref_md5_token manifest fn r hr
  have hexn : ∀ msg, msg ≠ r → test manifest fn (.raised msg) = FAILED := by
    intro msg hmsg
    have hdiff : ¬ r = get_md5 (.raised msg) := by
      simp only [get_md5]
      exact fun hh => hmsg hh.symm
    rw [test_eq, hr]
    simp [hdiff]
  refine ⟨?_, hexn, ?_⟩
  · intro rc out err hrc
    have hmd5 : get_md5 (.completed rc out err) = [] := by simp [get_md5, hrc]
    rw [test_eq, hr]
    simp [hmd5, hne]
  · intro msg hmsg
    obtain ⟨c, hc, hcs⟩ := hmsg
    refine hexn msg (fun hh => ?_)
    have := hnospace c (hh ▸ hc)
    rw [this] at hcs
    cases hcs

/-- C4 witness: a non-zero exit and a realistic launch-error message (which
contains spaces) both fail against a present reference. -/
theorem C4_invocation_failure_fails_witness :
    test (some "abc123  clip1.bin\n".toList) "clip1.bin".toList
      (.completed 1 [] []) = FAILED ∧
    test (some "abc123  clip1.bin\n".toList) "clip1.bin".toList
      (.raised "No such file or directory".toList) = FAILED := by
  have h := C4_invocation_failure_fails (some "abc123  clip1.bin\n".toList)
    "clip1.bin".toList "abc123".toList (by decide)
  exact ⟨h.1 1 [] [] (by decide), h.2.2 "No such file or directory".toList (by decide)⟩

/-- C5 counterexample: `replace("MD5=", "")` removes every occurrence, not
only a leading prefix: for stdout `"MD5=abMD5=cd\n"` the code returns
`"abcd"`, not `"abMD5=cd"` as leading-prefix-only stripping would. -/
theorem C5_counterexample :
    get_md5 (.completed 0 "MD5=abMD5=cd\n".toList []) = "abcd".toList ∧
    get_md5 (.completed 0 "MD5=abMD5=cd\n".toList []) ≠ "abMD5=cd".toList := by
  decide

/-- C5 amended: on a zero exit status `get_md5` returns stdout with every
occurrence of `MD5=` removed and surrounding whitespace trimmed; for stdout
of the form `MD5=<hex>` plus trailing whitespace, where `<hex>` contains no
whitespace and no `'M'` (true of hex digits), the result is exactly
`<hex>`. -/
theorem C5_md5_extraction (hex ws err : List Char)
    (hhex : ∀ c ∈ hex, isSpace c = false ∧ c ≠ 'M')
    (hws : ∀ c ∈ ws, isSpace c = true) :
    get_md5 (.completed 0 ("MD5=".toList ++ (hex ++ ws)) err) = hex := by
  show get_md5 (.completed 0 ('M' :: 'D' :: '5' :: '=' :: (hex ++ ws)) err) = hex
  have hnoM : ∀ c ∈ hex ++ ws, c ≠ 'M' := by
    intro c hc
    rcases List.mem_append.mp hc with h | h
    · exact (hhex c h).2
    · intro hcm
      subst hcm
      have := hws 'M' h
      rw [show isSpace 'M' = false from rfl] at this
      cases this
  simp only [get_md5]
  rw [if_neg (by simp), replaceMD5_mdfive, replaceMD5_no_M _ hnoM,
    pyStrip_append_ws hex ws (fun c hc => (hhex c hc).1) hws]

/-- C5 witness: `"MD5=def456\n"` extracts to `"def456"`. -/
theorem C5_md5_extraction_witness :
    get_md5 (.completed 0 ("MD5=".toList ++ ("def456".toList ++ "\n".toList)) []) =
      "def456".toList :=
  C5_md5_extraction "def456".toList "\n".toList [] (by decide) (by decide)

/-- C6: `is_candidiate` accepts a path exactly when its `splitext` extension,
lower-cased, is in the allow-list `.bin/.bit/.vvc/.266`; extensionless paths
(including dot-files such as `".bin"`, whose `splitext` extension is empty)
are rejected.  The predicate is a pure function of the path string. -/
theorem C6_is_candidiate_allowlist :
    (∀ p : List Char, is_candidiate p = true ↔
      pyLower (extOf p) ∈
        [".bin".toList, ".bit".toList, ".vvc".toList, ".266".toList]) ∧
    (∀ p : List Char, extOf p = [] → is_candidiate p = false) ∧
    is_candidiate "FILE.BIN".toList = true ∧
    is_candidiate "clip.mp4".toList = false ∧
    is_candidiate "noext".toList = false ∧
    is_candidiate ".bin".toList = false := by
  refine ⟨?_, ?_, by decide, by decide, by decide, by decide⟩
  · intro p
    simp [is_candidiate]
  · intro p h
    have hlow : pyLower (extOf p) = [] := by rw [h]; rfl
    simp [is_candidiate, hlow]

/-- C6 witness: a mixed-case allow-listed extension is accepted; an
extensionless path is rejected, via `C6_is_candidiate_allowlist`. -/
theorem C6_is_candidiate_allowlist_witness :
    is_candidiate "x/y.VvC".toList = true ∧
    is_candidiate "plainfile".toList = false :=
  ⟨(C6_is_candidiate_allowlist.1 "x/y.VvC".toList).mpr (by decide),
   C6_is_candidiate_allowlist.2.1 "plainfile".toList (by decide)⟩

/-- C7: the value `test_dir` passes to `sys.exit` is `count[FAILED]`, the
number of collected results with outcome `FAILED`; it is 0 whenever every
collected outcome is `PASSED` or `SKIPPED`. -/
theorem C7_exit_code_failed_count (results : List (Option Nat)) :
    (test_dir results).2 = (results.filter (fun r => r == some FAILED)).length ∧
    ((∀ r ∈ results, r = some PASSED ∨ r = some SKIPPED) →
      (test_dir results).2 = 0) := by
  constructor
  · exact collect_failed results
  · intro hall
    have hnil : results.filter (fun r => r == some FAILED) = [] := by
      rw [List.filter_eq_nil_iff]
      intro a ha
      rcases hall a ha with h | h <;> subst h <;> decide
    have h2 : (test_dir results).2 =
        (results.filter (fun r => r == some FAILED)).length :=
      collect_failed results
    rw [h2, hnil]
    rfl

/-- C7 witness: two failures among five dispatched give exit code 2; an
all-pass/skip run gives exit code 0. -/
theorem C7_exit_code_failed_count_witness :
    (test_dir [some PASSED, some FAILED, none, some SKIPPED, some FAILED]).2 = 2 ∧
    (test_dir [some PASSED, some SKIPPED]).2 = 0 :=
  ⟨by rw [(C7_exit_code_failed_count _).1]; decide,
   (C7_exit_code_failed_count [some PASSED, some SKIPPED]).2 (by decide)⟩

/-- C3 counterexample: one candidate is dispatched and its task raises an
exception during collection; the loop counts nothing, so
passed+failed+skipped = 0 while 1 candidate was dispatched — the claimed
equality fails exactly in the exception case it includes. -/
theorem C3_counterexample :
    sumCounts (collect [none]) = 0 ∧
    ([(none : Option Nat)]).length = 1 ∧
    sumCounts (collect [none]) ≠ ([(none : Option Nat)]).length := by decide

theorem filter_isSome_add_isNone (results : List (Option Nat)) :
    (results.filter (fun r => r.isSome)).length +
      (results.filter (fun r => r.isNone)).length = results.length := by
  induction results with
  | nil => rfl
  | cons r rs ih =>
    cases r <;> simp [List.filter_cons] <;> omega

/-- C3 amended: every dispatched candidate whose future is collected without
an exception contributes exactly one outcome, and
passed+failed+skipped equals the number of such candidates — equivalently,
the number dispatched minus the number whose task raised (outcome values
are 0, 1 or 2, as `test` guarantees). -/
theorem C3_counts_sum (results : List (Option Nat))
    (hv : ∀ r ∈ results, r.getD 0 < 3) :
    sumCounts (collect results) = (results.filter (fun r => r.isSome)).length ∧
    sumCounts (collect results) + (results.filter (fun r => r.isNone)).length =
      results.length := by
  have h1 : sumCounts (collect results) =
      (results.filter (fun r => r.isSome)).length :=
    collect_sum results (fun r hr s hs => by
      have := hv r hr
      rw [hs] at this
      simpa using this)
  refine ⟨h1, ?_⟩
  rw [h1]
  exact filter_isSome_add_isNone results

/-- C3 witness: three collected outcomes and one exception among four
dispatched candidates: counts sum to 3, and 3 + 1 = 4. -/
theorem C3_counts_sum_witness :
    sumCounts (collect [some PASSED, none, some FAILED, some SKIPPED]) = 3 ∧
    sumCounts (collect [some PASSED, none, some FAILED, some SKIPPED]) + 1 = 4 := by
  have h := C3_counts_sum [some PASSED, none, some FAILED, some SKIPPED] (by decide)
  exact ⟨by rw [h.1]; decide, by rw [h.1]; decide⟩

/-- C8 counterexample: single-file mode never consults the File Classifier:
`clip.mp4` is outside the allow-list, yet `test_file` hands it to the Test
Executor, which here produces `PASSED` from a matching manifest entry. -/
theorem C8_counterexample :
    is_candidiate "clip.mp4".toList = false ∧
    test_file (some "deadbeef  clip.mp4\n".toList) "clip.mp4".toList
      (.completed 0 "MD5=deadbeef\n".toList []) = (PASSED, 0) := by decide

/-- C8 amended: in single-file mode the harness runs the Test Executor once,
directly, without the File Classifier; even a path whose extension is
outside the allow-list is handed to `test`, and the function returns 0. -/
theorem C8_single_file_no_classifier (manifest : Option (List Char))
    (path : List Char) (res : SubprocResult) (_h : is_candidiate path = false) :
    test_file manifest path res = (test manifest path res, 0) := rfl

/-- C8 witness: a `.txt` path (not a candidate) still reaches `test`. -/
theorem C8_single_file_no_classifier_witness :
    test_file (some "x  f.txt\n".toList) "f.txt".toList (.raised []) =
      (test (some "x  f.txt\n".toList) "f.txt".toList (.raised []), 0) :=
  C8_single_file_no_classifier (some "x  f.txt\n".toList) "f.txt".toList
    (.raised []) (by decide)

end FfmpegTest
